import Mathlib

/-!
Shallow embedding of `client/mapping-sync/src/lib.rs` (Frontier mapping-sync
engine).  The engine walks the host (Substrate) chain forward from a persisted
frontier of already-indexed blocks (`current_syncing_tips`), writes the
Ethereum mapping entry for each newly selected canonical finalized child, and
advances the frontier.

External collaborators (the Substrate backend, the runtime API, the decoder
`fp_consensus::find_log` and the `fc_db` store) are modelled at their
interface boundary: every fallible query is an `Except String` valued field of
an environment record, and the two store writes can be made to fail through
explicit error knobs, so that partial-commit behaviour on failure is
observable.  State-changing operations thread an explicit `FrontierStore`
value and return it alongside their `Except` result, so that writes performed
before a failure survive in the returned state, exactly as writes to the real
database would.
-/

deriving instance DecidableEq for Except

namespace MappingSync

/-- Host block hash (opaque identity). -/
abbrev Hash := Nat

/-- Ethereum (secondary ledger) block or transaction hash. -/
abbrev EthHash := Nat

/-- Result of `fp_consensus::find_log(digest)?.into_hashes()`: the Ethereum
block hash and transaction hashes carried by a host header's consensus log. -/
structure PostHashes where
  block_hash : EthHash
  transaction_hashes : List EthHash
deriving DecidableEq, Repr

/-- A host block header, reduced to the two observations the engine makes of
it: `hash()` and the outcome of decoding its digest's consensus log.  The
decoder is an external pure function, so its result is carried as data. -/
structure Header where
  hash : Hash
  findLog : Except String PostHashes
deriving DecidableEq, Repr

/-- `fc_db::MappingCommitment`. -/
structure MappingCommitment where
  block_hash : Hash
  ethereum_block_hash : EthHash
  ethereum_transaction_hashes : List EthHash
deriving DecidableEq, Repr

/-- The Ethereum block returned by `runtime_api().current_block(..)`, reduced
to the observation made of it: `.header.hash()`. -/
structure EthereumBlock where
  headerHash : EthHash
deriving DecidableEq, Repr

/-- The external world seen by `sync_one_level` / `sync_blocks`: the Substrate
blockchain backend queries, the runtime API, and the failure knobs of the
`fc_db` store's read and write operations. -/
structure Env where
  /-- `substrate_backend.last_finalized()`. -/
  last_finalized : Except String Hash
  /-- `substrate_backend.block_number_from_id(&BlockId::Hash(h))`. -/
  block_number_from_id : Hash → Except String (Option Nat)
  /-- `substrate_backend.header(BlockId::Number(Zero::zero()))`. -/
  header_at_genesis : Except String (Option Header)
  /-- `substrate_backend.header(BlockId::Hash(h))`. -/
  header_by_hash : Hash → Except String (Option Header)
  /-- `substrate_backend.children(h)`. -/
  children : Hash → Except String (List Hash)
  /-- `substrate_backend.best_containing(h, None, lock)`. -/
  best_containing : Hash → Except String (Option Hash)
  /-- `client.runtime_api().current_block(&BlockId::Hash(h))`. -/
  current_block : Hash → Except String (Option EthereumBlock)
  /-- failure knob of `frontier_backend.meta().current_syncing_tips()`. -/
  read_tips_err : Option String
  /-- failure knob of `frontier_backend.mapping().write_hashes(..)`. -/
  write_hashes_err : Option String
  /-- failure knob of `frontier_backend.meta().write_current_syncing_tips(..)`. -/
  write_tips_err : Option String

/-- The persisted contents of the `fc_db` backend: the mapping entries written
so far (in write order) and the current syncing tips (the Frontier). -/
structure FrontierStore where
  mappings : List MappingCommitment
  tips : List Hash
deriving DecidableEq, Repr

/-- `frontier_backend.meta().current_syncing_tips()`. -/
def current_syncing_tips (env : Env) (s : FrontierStore) : Except String (List Hash) :=
  match env.read_tips_err with
  | some e => .error e
  | none => .ok s.tips

/-- `frontier_backend.mapping().write_hashes(commitment)`. -/
def write_hashes (env : Env) (s : FrontierStore) (mc : MappingCommitment) :
    Except String Unit × FrontierStore :=
  match env.write_hashes_err with
  | some e => (.error e, s)
  | none => (.ok (), { s with mappings := s.mappings ++ [mc] })

/-- `frontier_backend.meta().write_current_syncing_tips(tips)`. -/
def write_current_syncing_tips (env : Env) (s : FrontierStore) (tips : List Hash) :
    Except String Unit × FrontierStore :=
  match env.write_tips_err with
  | some e => (.error e, s)
  | none => (.ok (), { s with tips := tips })

/-- `sync_block`: decode the header's consensus log and write the mapping
commitment `{header.hash(), post_hashes.block_hash,
post_hashes.transaction_hashes}`. -/
def sync_block (env : Env) (s : FrontierStore) (header : Header) :
    Except String Unit × FrontierStore :=
  match header.findLog with
  | .error e => (.error e, s)
  | .ok post_hashes =>
    write_hashes env s
      { block_hash := header.hash
        ethereum_block_hash := post_hashes.block_hash
        ethereum_transaction_hashes := post_hashes.transaction_hashes }

/-- `sync_genesis_block`: query the runtime API for the Ethereum genesis block
at the host genesis block and write the mapping commitment
`{header.hash(), block.header.hash(), []}`. -/
def sync_genesis_block (env : Env) (s : FrontierStore) (header : Header) :
    Except String Unit × FrontierStore :=
  match env.current_block header.hash with
  | .error e => (.error e, s)
  | .ok none => (.error "Ethereum genesis block not found", s)
  | .ok (some block) =>
    write_hashes env s
      { block_hash := header.hash
        ethereum_block_hash := block.headerHash
        ethereum_transaction_hashes := [] }

/-- The closure passed to `children.iter().find(..)` in `sync_one_level`: a
child counts as on the best chain iff `best_containing` returns `Ok(Some(_))`;
`Ok(None)` and `Err(_)` both yield `false` (the error is logged and
swallowed). -/
def on_best_chain (env : Env) (c : Hash) : Bool :=
  match env.best_containing c with
  | .ok (some _) => true
  | .ok none => false
  | .error _ => false

/-- Outcome of the `for tip in &current_syncing_tips` loop of
`sync_one_level`: a propagated error, an early `return Ok(false)`, a `break`
with `syncing_tip_and_children = Some((tip, vec![child]))`, or loop exhaustion
with `syncing_tip_and_children = None`. -/
inductive LoopOutcome where
  | fail (e : String)
  | noProgress
  | found (tip child : Hash)
  | exhausted
deriving DecidableEq, Repr

/-- The `for tip in &current_syncing_tips` loop of `sync_one_level`, given the
last finalized block number. -/
def find_sync_target (env : Env) (last_finalized : Nat) : List Hash → LoopOutcome
  | [] => .exhausted
  | tip :: rest =>
    match env.children tip with
    | .error e => .fail e
    | .ok cs =>
      match cs.find? (fun c => on_best_chain env c) with
      | some child =>
        match env.block_number_from_id child with
        | .error e => .fail ("error get child block number: " ++ e)
        | .ok none => .fail "error get child number"
        | .ok (some child_number) =>
          if child_number ≤ last_finalized then .found tip child
          else if cs.length > 0 then .noProgress
          else find_sync_target env last_finalized rest
      | none =>
        if cs.length > 0 then .noProgress
        else find_sync_target env last_finalized rest

/-- The `for child in children` loop of `sync_one_level`: look up each child's
header, `sync_block` it, and push the child onto the accumulating tips. -/
def sync_children (env : Env) (s : FrontierStore) (tips : List Hash) :
    List Hash → Except String (List Hash) × FrontierStore
  | [] => (.ok tips, s)
  | child :: rest =>
    match env.header_by_hash child with
    | .error e => (.error e, s)
    | .ok none => (.error "Header not found", s)
    | .ok (some header) =>
      match sync_block env s header with
      | (.error e, s1) => (.error e, s1)
      | (.ok _, s1) => sync_children env s1 (tips ++ [child]) rest

/-- `sync_one_level`. -/
def sync_one_level (env : Env) (s : FrontierStore) : Except String Bool × FrontierStore :=
  match current_syncing_tips env s with
  | .error e => (.error e, s)
  | .ok tips =>
    if tips.length == 0 then
      -- Sync genesis block.  First make sure we have some finalized block;
      -- the value is discarded (`let _ = ..?`).
      match env.last_finalized with
      | .error e => (.error ("error get finalzied block: " ++ e), s)
      | .ok _ =>
        match env.header_at_genesis with
        | .error e => (.error e, s)
        | .ok none => (.error "Genesis header not found", s)
        | .ok (some header) =>
          match sync_genesis_block env s header with
          | (.error e, s1) => (.error e, s1)
          | (.ok _, s1) =>
            match write_current_syncing_tips env s1 (tips ++ [header.hash]) with
            | (.error e, s2) => (.error e, s2)
            | (.ok _, s2) => (.ok true, s2)
    else
      match env.last_finalized with
      | .error e => (.error ("error get finalzied block: " ++ e), s)
      | .ok last_finalized_block =>
        match env.block_number_from_id last_finalized_block with
        | .error e => (.error ("error get finalzied block number: " ++ e), s)
        | .ok none => (.error "", s)
        | .ok (some last_finalized) =>
          match find_sync_target env last_finalized tips with
          | .fail e => (.error e, s)
          | .noProgress => (.ok false, s)
          | .exhausted => (.ok false, s)
          | .found syncing_tip child =>
            -- `current_syncing_tips.retain(|tip| tip != &syncing_tip)`
            match sync_children env s (tips.filter (fun tip => tip != syncing_tip)) [child] with
            | (.error e, s1) => (.error e, s1)
            | (.ok new_tips, s1) =>
              match write_current_syncing_tips env s1 new_tips with
              | (.error e, s2) => (.error e, s2)
              | (.ok _, s2) => (.ok true, s2)

/-- The `for _ in 0..limit` loop of `sync_blocks`, carrying `synced_any`.
`synced_any = synced_any || sync_one_level(..)?` short-circuits: once
`synced_any` is `true`, `sync_one_level` is no longer called. -/
def sync_blocks_loop (env : Env) (s : FrontierStore) (synced_any : Bool) :
    Nat → Except String Bool × FrontierStore
  | 0 => (.ok synced_any, s)
  | n + 1 =>
    if synced_any then
      sync_blocks_loop env s true n
    else
      match sync_one_level env s with
      | (.error e, s1) => (.error e, s1)
      | (.ok progressed, s1) => sync_blocks_loop env s1 progressed n

/-- `sync_blocks` (the batch driver, `advance(limit)`). -/
def sync_blocks (env : Env) (s : FrontierStore) (limit : Nat) :
    Except String Bool × FrontierStore :=
  sync_blocks_loop env s false limit

/-- MappingStore write present for a given host block identity. -/
def has_entry (s : FrontierStore) (h : Hash) : Prop :=
  ∃ mc ∈ s.mappings, mc.block_hash = h

/-- Every member of the Frontier (current syncing tips) has a corresponding
mapping entry. -/
def frontier_mapped (s : FrontierStore) : Prop :=
  ∀ h ∈ s.tips, has_entry s h

/-- An environment is hash-consistent when a header found under a hash key
hashes back to that key, as the real blockchain backend guarantees. -/
def hash_consistent (env : Env) : Prop :=
  ∀ h hd, env.header_by_hash h = .ok (some hd) → hd.hash = h

/-- `env` with `best_containing` failures replaced by `Ok(None)`; used to
state that `best_containing` errors are swallowed as "not on best chain". -/
def scrub_best_containing (env : Env) : Env :=
  { env with best_containing := fun c =>
      match env.best_containing c with
      | .error _ => .ok none
      | r => r }

/-! Concrete environments used as witnesses and counterexamples.  Chain shape
of `envA`: host blocks 0 → 1 → 2 → 3 in a single line, every block canonical
(`best_containing` succeeds) and finalized (numbers 1, 2, 3 against last
finalized number 50). -/

/-- A chain view with three consecutive immediately advanceable levels above
tip 0. -/
def envA : Env := {
  last_finalized := .ok 100
  block_number_from_id := fun h => .ok (some (if h = 100 then 50 else h))
  header_at_genesis := .ok none
  header_by_hash := fun h =>
    .ok (some { hash := h, findLog := .ok { block_hash := h + 200, transaction_hashes := [] } })
  children := fun h =>
    .ok (if h = 0 then [1] else if h = 1 then [2] else if h = 2 then [3] else [])
  best_containing := fun _ => .ok (some 999)
  current_block := fun _ => .ok none
  read_tips_err := none
  write_hashes_err := none
  write_tips_err := none }

/-- Store with Frontier `[0]` and no mapping entries yet. -/
def sA : FrontierStore := { mappings := [], tips := [0] }

/-- `envA` with a failing frontier write, so that a step fails after its
mapping-entry write. -/
def envB : Env := { envA with write_tips_err := some "tips write failed" }

/-- Chain view for the first-blocking-tip scenario: Frontier `[0, 10]`; tip 0
has the single canonical but unfinalized child 1 (number 60 > 50); tip 10 has
the canonical finalized child 11 (number 5 ≤ 50). -/
def envC3 : Env := {
  last_finalized := .ok 100
  block_number_from_id := fun h =>
    .ok (some (if h = 100 then 50 else if h = 1 then 60 else if h = 11 then 5 else h))
  header_at_genesis := .ok none
  header_by_hash := fun h =>
    .ok (some { hash := h, findLog := .ok { block_hash := h + 200, transaction_hashes := [] } })
  children := fun h => .ok (if h = 0 then [1] else if h = 10 then [11] else [])
  best_containing := fun c => if c = 1 ∨ c = 11 then .ok (some 9) else .ok none
  current_block := fun _ => .ok none
  read_tips_err := none
  write_hashes_err := none
  write_tips_err := none }

/-- Store with Frontier `[0, 10]`. -/
def sC3 : FrontierStore := { mappings := [], tips := [0, 10] }

/-- Chain view where tip 0 has children `[2, 1]`, only child 1 is canonical,
and child 1 has number 60 > last finalized 50. -/
def envC4 : Env := { envC3 with
  children := fun h => .ok (if h = 0 then [2, 1] else [])
  best_containing := fun c => if c = 1 then .ok (some 9) else .ok none }

/-- Store with Frontier `[0]`. -/
def sC4 : FrontierStore := { mappings := [], tips := [0] }

/-- Chain view where tip 0 has children `[1, 2]`, only child 1 is canonical,
and child 1 has number 7 ≤ last finalized 50. -/
def envC5 : Env := {
  last_finalized := .ok 100
  block_number_from_id := fun h => .ok (some (if h = 100 then 50 else if h = 1 then 7 else h))
  header_at_genesis := .ok none
  header_by_hash := fun h =>
    .ok (some { hash := h, findLog := .ok { block_hash := 201, transaction_hashes := [301, 302] } })
  children := fun h => .ok (if h = 0 then [1, 2] else [])
  best_containing := fun c => if c = 1 then .ok (some 9) else .ok none
  current_block := fun _ => .ok none
  read_tips_err := none
  write_hashes_err := none
  write_tips_err := none }

/-- Store with Frontier `[0]` for the single-step-advancement scenario. -/
def sC5 : FrontierStore := { mappings := [], tips := [0] }

/-- Chain view for the bootstrap scenario: host genesis header has hash 5 and
the runtime API reports the Ethereum genesis block with header hash 77. -/
def envC6 : Env := {
  last_finalized := .ok 100
  block_number_from_id := fun h => .ok (some (if h = 100 then 50 else h))
  header_at_genesis := .ok (some { hash := 5, findLog := .ok { block_hash := 999, transaction_hashes := [] } })
  header_by_hash := fun _ => .ok none
  children := fun _ => .ok []
  best_containing := fun _ => .ok none
  current_block := fun h => if h = 5 then .ok (some { headerHash := 77 }) else .ok none
  read_tips_err := none
  write_hashes_err := none
  write_tips_err := none }

/-- The empty store (first run: no mappings, empty Frontier). -/
def sC6 : FrontierStore := { mappings := [], tips := [] }

/-- A stalled chain view: tip 0 has the single child 1, which is not on the
best chain, so no step can make progress. -/
def envC8 : Env := { envC6 with
  children := fun h => .ok (if h = 0 then [1] else [])
  header_at_genesis := .ok none }

/-- Store with Frontier `[0]` and the matching entry for 0. -/
def sC8 : FrontierStore :=
  { mappings := [{ block_hash := 0, ethereum_block_hash := 77, ethereum_transaction_hashes := [] }]
    tips := [0] }

/-- A chain view whose `last_finalized` query fails. -/
def envC9 : Env := { envC6 with last_finalized := .error "boom" }

/-! ## Frame lemmas

Every store-writing operation leaves `tips` unchanged except the final
`write_current_syncing_tips`, and only ever appends to `mappings`. -/

theorem write_hashes_frame (env : Env) (s : FrontierStore) (mc : MappingCommitment) :
    (write_hashes env s mc).2.tips = s.tips ∧
      ∃ extra, (write_hashes env s mc).2.mappings = s.mappings ++ extra := by
  unfold write_hashes
  split
  · exact ⟨rfl, [], by simp⟩
  · exact ⟨rfl, [mc], rfl⟩

theorem sync_block_frame (env : Env) (s : FrontierStore) (header : Header) :
    (sync_block env s header).2.tips = s.tips ∧
      ∃ extra, (sync_block env s header).2.mappings = s.mappings ++ extra := by
  unfold sync_block
  split
  · exact ⟨rfl, [], by simp⟩
  · exact write_hashes_frame env s _

theorem sync_genesis_block_frame (env : Env) (s : FrontierStore) (header : Header) :
    (sync_genesis_block env s header).2.tips = s.tips ∧
      ∃ extra, (sync_genesis_block env s header).2.mappings = s.mappings ++ extra := by
  unfold sync_genesis_block
  split
  · exact ⟨rfl, [], by simp⟩
  · exact ⟨rfl, [], by simp⟩
  · exact write_hashes_frame env s _

theorem sync_children_frame (env : Env) :
    ∀ (cs : List Hash) (s : FrontierStore) (tips : List Hash),
      (sync_children env s tips cs).2.tips = s.tips ∧
        ∃ extra, (sync_children env s tips cs).2.mappings = s.mappings ++ extra
  | [], s, tips => ⟨rfl, [], by simp [sync_children]⟩
  | child :: rest, s, tips => by
    unfold sync_children
    split
    · exact ⟨rfl, [], by simp⟩
    · exact ⟨rfl, [], by simp⟩
    · rename_i header _
      split
      · rename_i e s1 heq
        have hf := sync_block_frame env s header
        rw [heq] at hf
        exact hf
      · rename_i u s1 heq
        have hf := sync_block_frame env s header
        rw [heq] at hf
        have hr := sync_children_frame env rest s1 (tips ++ [child])
        refine ⟨hr.1.trans hf.1, ?_⟩
        obtain ⟨e1, he1⟩ := hf.2
        obtain ⟨e2, he2⟩ := hr.2
        exact ⟨e1 ++ e2, by rw [he2, he1, List.append_assoc]⟩

theorem write_current_syncing_tips_error (env : Env) (s : FrontierStore) (t : List Hash)
    (e : String) (s' : FrontierStore)
    (h : write_current_syncing_tips env s t = (.error e, s')) : s' = s := by
  unfold write_current_syncing_tips at h
  split at h
  · exact (Prod.mk.injEq _ _ _ _ ▸ h).2.symm
  · simp at h

/-- A step that reports no progress leaves the store untouched: every
`Ok(false)` exit of `sync_one_level` happens before any write. -/
theorem sync_one_level_false_frame (env : Env) (s s' : FrontierStore)
    (h : sync_one_level env s = (.ok false, s')) : s' = s := by
  unfold sync_one_level at h
  repeat' split at h
  all_goals simp_all

/-- A failing step never touches the persisted Frontier, and only ever appends
to the MappingStore (it can leave behind the mapping entry written just before
a failing frontier write). -/
theorem sync_one_level_error_frame (env : Env) (s : FrontierStore) (e : String)
    (s' : FrontierStore) (h : sync_one_level env s = (.error e, s')) :
    s'.tips = s.tips ∧ ∃ extra, s'.mappings = s.mappings ++ extra := by
  unfold sync_one_level at h
  cases hrt : current_syncing_tips env s with
  | error e0 =>
    simp only [hrt, Prod.mk.injEq, Except.error.injEq] at h
    obtain ⟨-, rfl⟩ := h
    exact ⟨rfl, [], by simp⟩
  | ok cs =>
    simp only [hrt] at h
    split at h
    · cases hlf : env.last_finalized with
      | error e1 =>
        simp only [hlf, Prod.mk.injEq, Except.error.injEq] at h
        obtain ⟨-, rfl⟩ := h
        exact ⟨rfl, [], by simp⟩
      | ok lfb =>
        simp only [hlf] at h
        cases hg : env.header_at_genesis with
        | error e1 =>
          simp only [hg, Prod.mk.injEq, Except.error.injEq] at h
          obtain ⟨-, rfl⟩ := h
          exact ⟨rfl, [], by simp⟩
        | ok o =>
          simp only [hg] at h
          cases o with
          | none =>
            simp only [Prod.mk.injEq, Except.error.injEq] at h
            obtain ⟨-, rfl⟩ := h
            exact ⟨rfl, [], by simp⟩
          | some header =>
            rcases hsg : sync_genesis_block env s header with ⟨r1, s1⟩
            simp only [hsg] at h
            cases r1 with
            | error e1 =>
              simp only [Prod.mk.injEq, Except.error.injEq] at h
              obtain ⟨-, rfl⟩ := h
              have hf := sync_genesis_block_frame env s header
              rw [hsg] at hf
              exact hf
            | ok u =>
              rcases hw : write_current_syncing_tips env s1 (cs ++ [header.hash]) with ⟨r2, s2⟩
              simp only [hw] at h
              cases r2 with
              | error e2 =>
                simp only [Prod.mk.injEq, Except.error.injEq] at h
                obtain ⟨-, rfl⟩ := h
                have hs2 := write_current_syncing_tips_error env s1 _ _ _ hw
                subst hs2
                have hf := sync_genesis_block_frame env s header
                rw [hsg] at hf
                exact hf
              | ok u2 => simp at h
    · cases hlf : env.last_finalized with
      | error e1 =>
        simp only [hlf, Prod.mk.injEq, Except.error.injEq] at h
        obtain ⟨-, rfl⟩ := h
        exact ⟨rfl, [], by simp⟩
      | ok lfb =>
        simp only [hlf] at h
        cases hn : env.block_number_from_id lfb with
        | error e1 =>
          simp only [hn, Prod.mk.injEq, Except.error.injEq] at h
          obtain ⟨-, rfl⟩ := h
          exact ⟨rfl, [], by simp⟩
        | ok o =>
          simp only [hn] at h
          cases o with
          | none =>
            simp only [Prod.mk.injEq, Except.error.injEq] at h
            obtain ⟨-, rfl⟩ := h
            exact ⟨rfl, [], by simp⟩
          | some f =>
            cases hft : find_sync_target env f cs with
            | fail e1 =>
              simp only [hft, Prod.mk.injEq, Except.error.injEq] at h
              obtain ⟨-, rfl⟩ := h
              exact ⟨rfl, [], by simp⟩
            | noProgress => simp only [hft] at h; simp at h
            | exhausted => simp only [hft] at h; simp at h
            | found st ch =>
              simp only [hft] at h
              rcases hsc : sync_children env s (cs.filter (fun tip => tip != st)) [ch] with ⟨r1, s1⟩
              simp only [hsc] at h
              cases r1 with
              | error e1 =>
                simp only [Prod.mk.injEq, Except.error.injEq] at h
                obtain ⟨-, rfl⟩ := h
                have hf := sync_children_frame env [ch] s (cs.filter (fun tip => tip != st))
                rw [hsc] at hf
                exact hf
              | ok new_tips =>
                rcases hw : write_current_syncing_tips env s1 new_tips with ⟨r2, s2⟩
                simp only [hw] at h
                cases r2 with
                | error e2 =>
                  simp only [Prod.mk.injEq, Except.error.injEq] at h
                  obtain ⟨-, rfl⟩ := h
                  have hs2 := write_current_syncing_tips_error env s1 _ _ _ hw
                  subst hs2
                  have hf := sync_children_frame env [ch] s (cs.filter (fun tip => tip != st))
                  rw [hsc] at hf
                  exact hf
                | ok u2 => simp at h

/-- The batch loop returns immediately-accumulated `true` without further
work once `synced_any` is set: the `||` short-circuit. -/
theorem sync_blocks_loop_true (env : Env) (n : Nat) (s : FrontierStore) :
    sync_blocks_loop env s true n = (.ok true, s) := by
  induction n with
  | zero => rfl
  | succ n ih => simpa [sync_blocks_loop] using ih

/-- A batch call that reports no progress left the store untouched. -/
theorem sync_blocks_loop_false (env : Env) : ∀ (n : Nat) (s s' : FrontierStore),
    sync_blocks_loop env s false n = (.ok false, s') → s' = s := by
  intro n
  induction n with
  | zero =>
    intro s s' h
    injection h with h1 h2
    exact h2.symm
  | succ n ih =>
    intro s s' h
    simp only [sync_blocks_loop, Bool.false_eq_true, if_false] at h
    split at h
    · simp at h
    · rename_i progressed s1 hs1
      cases progressed with
      | true => rw [sync_blocks_loop_true] at h; simp at h
      | false =>
        have h1 := sync_one_level_false_frame env s s1 hs1
        rw [ih s1 s' h, h1]

theorem scrub_on_best_chain (env : Env) (c : Hash) :
    on_best_chain (scrub_best_containing env) c = on_best_chain env c := by
  unfold on_best_chain scrub_best_containing
  cases h : env.best_containing c with
  | error e => simp [h]
  | ok o => cases o <;> simp [h]

theorem scrub_find_sync_target (env : Env) (f : Nat) (l : List Hash) :
    find_sync_target (scrub_best_containing env) f l = find_sync_target env f l := by
  induction l with
  | nil => rfl
  | cons tip rest ih =>
    unfold find_sync_target
    have hfun : (fun c => on_best_chain (scrub_best_containing env) c)
        = (fun c => on_best_chain env c) := funext (scrub_on_best_chain env)
    rw [hfun, ih]
    rfl

/-- C1: evaluation of the code at the failing input.  With Frontier `[0]` and
three consecutive immediately advanceable levels 1, 2, 3 (each canonical and
finalized), `sync_blocks` with limit 3 returns `true` but advances the
Frontier by only ONE level (tips become `[1]`, not `[3]`), and behaves
identically to limit 1: because `synced_any = synced_any ||
sync_one_level(..)?` short-circuits, the remaining repetitions never call
`sync_one_level` once progress has been made, contradicting the claim that
`advance(3)` drains three ready levels and that each repetition executes
regardless of earlier progress. -/
theorem C1_batch_drain_short_circuits :
    sync_blocks envA sA 3 =
      (.ok true, { mappings := [{ block_hash := 1, ethereum_block_hash := 201,
                                  ethereum_transaction_hashes := [] }], tips := [1] }) ∧
    sync_blocks envA sA 1 =
      (.ok true, { mappings := [{ block_hash := 1, ethereum_block_hash := 201,
                                  ethereum_transaction_hashes := [] }], tips := [1] }) ∧
    (sync_blocks envA sA 3).2.tips ≠ [3] :=
  ⟨rfl, rfl, by decide⟩

/-- C2: counterexample to the claim as stated.  In `envB` the frontier write
fails after the mapping-entry write succeeded: `sync_one_level` returns an
error, yet the MappingStore has gained the entry for block 1 — a partial
commit, so a failure between the mapping-entry write and the frontier write
does NOT leave the MappingStore unchanged. -/
theorem C2_partial_commit_counterexample :
    sync_one_level envB sA =
      (.error "tips write failed",
       { mappings := [{ block_hash := 1, ethereum_block_hash := 201,
                        ethereum_transaction_hashes := [] }], tips := [0] }) ∧
    (sync_one_level envB sA).2.mappings ≠ sA.mappings :=
  ⟨rfl, by decide⟩

/-- C2 (amended): for every invocation of `sync_one_level` that returns an
error, the persisted Frontier (current syncing tips) is left unchanged, and
the MappingStore is at most extended — the entry write strictly precedes the
frontier write, so a failure in between can leave the new mapping entry
behind but never a partially updated Frontier. -/
theorem C2_error_atomicity_amended (env : Env) (s : FrontierStore) (e : String)
    (s' : FrontierStore) (h : sync_one_level env s = (.error e, s')) :
    s'.tips = s.tips ∧ ∃ extra, s'.mappings = s.mappings ++ extra :=
  sync_one_level_error_frame env s e s' h

/-- C2 witness: the amended claim applied at the concrete failing store. -/
theorem C2_error_atomicity_witness :
    ({ mappings := [{ block_hash := 1, ethereum_block_hash := 201,
                      ethereum_transaction_hashes := [] }],
       tips := [0] } : FrontierStore).tips = sA.tips ∧
    ∃ extra, ({ mappings := [{ block_hash := 1, ethereum_block_hash := 201,
                               ethereum_transaction_hashes := [] }],
                tips := [0] } : FrontierStore).mappings = sA.mappings ++ extra :=
  C2_error_atomicity_amended envB sA "tips write failed" _ rfl

/-- C8: if `sync_blocks` (advance) returns `progressed = false`, then no
write was performed — the persisted store is identical — and invoking it
again with the same inputs again returns `false` and leaves the persisted
state identical. -/
theorem C8_stalled_advance_idempotent (env : Env) (s : FrontierStore) (limit : Nat)
    (s' : FrontierStore) (h : sync_blocks env s limit = (.ok false, s')) :
    s' = s ∧ sync_blocks env s' limit = (.ok false, s') := by
  have hs := sync_blocks_loop_false env limit s s' h
  exact ⟨hs, by rw [hs]; rw [hs] at h; exact h⟩

/-- C8 witness: a concrete stalled state (tip 0's only child is not on the
best chain). -/
theorem C8_stalled_advance_witness :
    sC8 = sC8 ∧ sync_blocks envC8 sC8 2 = (.ok false, sC8) :=
  C8_stalled_advance_idempotent envC8 sC8 2 sC8 (by decide)

/-- C9: with an empty persisted Frontier, the bootstrap path first requires
`last_finalized()` to succeed; if that query fails, the whole call fails with
an error and nothing is written — even though the last-finalized value is
never used on this path (the environment's genesis header and runtime API
are unconstrained here). -/
theorem C9_bootstrap_requires_last_finalized (env : Env) (s : FrontierStore) (e : String)
    (hr : env.read_tips_err = none) (ht : s.tips = []) (hlf : env.last_finalized = .error e) :
    sync_one_level env s = (.error ("error get finalzied block: " ++ e), s) := by
  simp [sync_one_level, current_syncing_tips, hr, ht, hlf]

/-- C9 witness. -/
theorem C9_bootstrap_requires_last_finalized_witness :
    sync_one_level envC9 sC6 = (.error ("error get finalzied block: " ++ "boom"), sC6) :=
  C9_bootstrap_requires_last_finalized envC9 sC6 "boom" rfl rfl rfl

/-- C10: errors of the canonical-chain containment query are swallowed, never
propagated: replacing every `best_containing` failure by `Ok(None)` ("not on
any best chain") leaves `sync_one_level` — result and final store alike —
unchanged, for every environment and store.  In particular no error of
`best_containing` can surface as a failure of the step or of `advance`. -/
theorem C10_best_containing_errors_swallowed (env : Env) (s : FrontierStore) :
    sync_one_level (scrub_best_containing env) s = sync_one_level env s := by
  unfold sync_one_level
  simp only [scrub_find_sync_target]
  rfl

/-! ## Success-shape lemmas for the invariant proof -/

theorem current_syncing_tips_ok (env : Env) (s : FrontierStore) (cs : List Hash)
    (h : current_syncing_tips env s = .ok cs) : cs = s.tips := by
  unfold current_syncing_tips at h
  split at h
  · simp at h
  · injection h with h1
    exact h1.symm

theorem write_hashes_ok (env : Env) (s : FrontierStore) (mc : MappingCommitment)
    (u : Unit) (s1 : FrontierStore) (h : write_hashes env s mc = (.ok u, s1)) :
    s1 = { s with mappings := s.mappings ++ [mc] } := by
  unfold write_hashes at h
  split at h
  · simp at h
  · injection h with h1 h2
    exact h2.symm

theorem write_current_syncing_tips_ok (env : Env) (s : FrontierStore) (t : List Hash)
    (u : Unit) (s1 : FrontierStore) (h : write_current_syncing_tips env s t = (.ok u, s1)) :
    s1 = { s with tips := t } := by
  unfold write_current_syncing_tips at h
  split at h
  · simp at h
  · injection h with h1 h2
    exact h2.symm

theorem sync_block_ok (env : Env) (s : FrontierStore) (header : Header)
    (u : Unit) (s1 : FrontierStore) (h : sync_block env s header = (.ok u, s1)) :
    s1.tips = s.tips ∧ (∃ extra, s1.mappings = s.mappings ++ extra) ∧
      has_entry s1 header.hash := by
  unfold sync_block at h
  split at h
  · simp at h
  · rename_i post hlog
    have := write_hashes_ok env s _ u s1 h
    subst this
    refine ⟨rfl, ⟨_, rfl⟩, ?_⟩
    exact ⟨_, List.mem_append_right _ (List.mem_singleton_self _), rfl⟩

theorem sync_genesis_block_ok (env : Env) (s : FrontierStore) (header : Header)
    (u : Unit) (s1 : FrontierStore) (h : sync_genesis_block env s header = (.ok u, s1)) :
    s1.tips = s.tips ∧ (∃ extra, s1.mappings = s.mappings ++ extra) ∧
      has_entry s1 header.hash := by
  unfold sync_genesis_block at h
  split at h
  · simp at h
  · simp at h
  · have := write_hashes_ok env s _ u s1 h
    subst this
    refine ⟨rfl, ⟨_, rfl⟩, ?_⟩
    exact ⟨_, List.mem_append_right _ (List.mem_singleton_self _), rfl⟩

theorem has_entry_extend (s s1 : FrontierStore) (h : Hash) (extra : List MappingCommitment)
    (he : s1.mappings = s.mappings ++ extra) (hh : has_entry s h) : has_entry s1 h := by
  obtain ⟨mc, hmc, hbh⟩ := hh
  exact ⟨mc, he ▸ List.mem_append_left _ hmc, hbh⟩

theorem sync_children_singleton_ok (env : Env) (s : FrontierStore) (tips0 : List Hash)
    (child : Hash) (r : List Hash) (s1 : FrontierStore)
    (h : sync_children env s tips0 [child] = (.ok r, s1)) :
    r = tips0 ++ [child] ∧ s1.tips = s.tips ∧
      (∃ extra, s1.mappings = s.mappings ++ extra) ∧
      (hash_consistent env → has_entry s1 child) := by
  unfold sync_children at h
  split at h
  · simp at h
  · simp at h
  · rename_i header hh
    split at h
    · simp at h
    · rename_i u s2 hsb
      unfold sync_children at h
      injection h with h1 h2
      injection h1 with h1
      obtain ⟨htips, hext, hent⟩ := sync_block_ok env s header u s2 hsb
      refine ⟨h1.symm, ?_, ?_, ?_⟩
      · rw [← h2]; exact htips
      · rw [← h2]; exact hext
      · intro hc
        rw [← h2, ← hc child header hh]
        exact hent

/-- A successful step preserves the Frontier-mapped invariant: each identity
is pushed onto the tips only after its mapping entry has been written. -/
theorem sync_one_level_preserves_mapped (env : Env) (s : FrontierStore) (b : Bool)
    (s' : FrontierStore) (hb : hash_consistent env) (hinv : frontier_mapped s)
    (h : sync_one_level env s = (.ok b, s')) : frontier_mapped s' := by
  unfold sync_one_level at h
  cases hrt : current_syncing_tips env s with
  | error e0 => simp [hrt] at h
  | ok cs =>
    have hcs := current_syncing_tips_ok env s cs hrt
    simp only [hrt] at h
    split at h
    · cases hlf : env.last_finalized with
      | error e1 => simp [hlf] at h
      | ok lfb =>
        simp only [hlf] at h
        cases hg : env.header_at_genesis with
        | error e1 => simp [hg] at h
        | ok o =>
          simp only [hg] at h
          cases o with
          | none => simp at h
          | some header =>
            rcases hsg : sync_genesis_block env s header with ⟨r1, s1⟩
            simp only [hsg] at h
            cases r1 with
            | error e1 => simp at h
            | ok u =>
              rcases hw : write_current_syncing_tips env s1 (cs ++ [header.hash]) with ⟨r2, s2⟩
              simp only [hw] at h
              cases r2 with
              | error e2 => simp at h
              | ok u2 =>
                injection h with h1 h2
                subst h2
                obtain ⟨htips, ⟨extra, hext⟩, hent⟩ := sync_genesis_block_ok env s header u s1 hsg
                have hs2 := write_current_syncing_tips_ok env s1 _ u2 _ hw
                subst hs2
                intro x hx
                rcases List.mem_append.mp hx with hx | hx
                · exact has_entry_extend s s1 x extra hext (hinv x (hcs ▸ hx))
                · rw [List.mem_singleton.mp hx]
                  exact hent
    · cases hlf : env.last_finalized with
      | error e1 => simp [hlf] at h
      | ok lfb =>
        simp only [hlf] at h
        cases hn : env.block_number_from_id lfb with
        | error e1 => simp [hn] at h
        | ok o =>
          simp only [hn] at h
          cases o with
          | none => simp at h
          | some f =>
            cases hft : find_sync_target env f cs with
            | fail e1 => simp [hft] at h
            | noProgress =>
              simp only [hft] at h
              injection h with h1 h2
              rw [← h2]
              exact hinv
            | exhausted =>
              simp only [hft] at h
              injection h with h1 h2
              rw [← h2]
              exact hinv
            | found st ch =>
              simp only [hft] at h
              rcases hsc : sync_children env s (cs.filter (fun tip => tip != st)) [ch] with ⟨r1, s1⟩
              simp only [hsc] at h
              cases r1 with
              | error e1 => simp at h
              | ok new_tips =>
                rcases hw : write_current_syncing_tips env s1 new_tips with ⟨r2, s2⟩
                simp only [hw] at h
                cases r2 with
                | error e2 => simp at h
                | ok u2 =>
                  injection h with h1 h2
                  subst h2
                  obtain ⟨hr, htips, ⟨extra, hext⟩, hentf⟩ :=
                    sync_children_singleton_ok env s _ ch new_tips s1 hsc
                  have hs2 := write_current_syncing_tips_ok env s1 _ u2 _ hw
                  subst hs2
                  intro x hx
                  rcases List.mem_append.mp (hr ▸ hx) with hx1 | hx1
                  · exact has_entry_extend s s1 x extra hext
                      (hinv x (hcs ▸ List.mem_of_mem_filter hx1))
                  · rw [List.mem_singleton.mp hx1]
                    exact hentf hb

theorem sync_blocks_loop_preserves_mapped (env : Env) (hb : hash_consistent env) :
    ∀ (n : Nat) (s : FrontierStore) (sa b : Bool) (s' : FrontierStore),
      frontier_mapped s → sync_blocks_loop env s sa n = (.ok b, s') → frontier_mapped s'
  | 0, s, sa, b, s', hinv, h => by
    injection h with h1 h2
    rw [← h2]
    exact hinv
  | n + 1, s, sa, b, s', hinv, h => by
    cases sa with
    | true =>
      rw [sync_blocks_loop_true] at h
      injection h with h1 h2
      rw [← h2]
      exact hinv
    | false =>
      simp only [sync_blocks_loop, Bool.false_eq_true, if_false] at h
      split at h
      · simp at h
      · rename_i progressed s1 hs1
        exact sync_blocks_loop_preserves_mapped env hb n s1 progressed b s'
          (sync_one_level_preserves_mapped env s progressed s1 hb hinv hs1) h

/-- `find?` returns the distinguished element when it is the only element of
the list satisfying the predicate. -/
theorem find_of_unique {α : Type} (p : α → Bool) (d : α) :
    ∀ (l : List α), d ∈ l → p d = true → (∀ x ∈ l, p x = true → x = d) →
      l.find? p = some d
  | x :: xs, hmem, hpd, huniq => by
    cases hx : p x with
    | true =>
      have hxd : x = d := huniq x (List.mem_cons_self x xs) hx
      rw [List.find?_cons_of_pos _ hx, hxd]
    | false =>
      have hdx : d ∈ xs := by
        rcases List.mem_cons.mp hmem with hEq | hMem
        · subst hEq; rw [hpd] at hx; cases hx
        · exact hMem
      rw [List.find?_cons_of_neg _ (by simp [hx])]
      exact find_of_unique p d xs hdx hpd
        (fun y hy hpy => huniq y (List.mem_cons_of_mem _ hy) hpy)

/-- C3: first-blocking-tip asymmetry.  With Frontier `[a, z]` in that order,
where `a` has at least one child but none of its canonical children is
finalized (every child passing the best-chain test has number > last
finalized), the single-level step returns `Ok(false)` with the store
unchanged — even though `z` has a child `w` that is canonical and finalized
and would have advanced.  `a` blocks the evaluation of `z`. -/
theorem C3_first_blocking_tip (env : Env) (s : FrontierStore) (a z lfb : Hash) (f : Nat)
    (ca cz : List Hash) (w : Hash) (nw : Nat)
    (hr : env.read_tips_err = none)
    (ht : s.tips = [a, z])
    (hlf : env.last_finalized = .ok lfb)
    (hf : env.block_number_from_id lfb = .ok (some f))
    (hca : env.children a = .ok ca)
    (hne : ca ≠ [])
    (hA : ∀ x ∈ ca, on_best_chain env x = true →
      ∃ n, env.block_number_from_id x = .ok (some n) ∧ f < n)
    (hcz : env.children z = .ok cz)
    (hwz : w ∈ cz) (hwb : on_best_chain env w = true)
    (hwn : env.block_number_from_id w = .ok (some nw)) (hwf : nw ≤ f) :
    sync_one_level env s = (.ok false, s) := by
  have hpos : ca.length > 0 := List.length_pos.mpr hne
  have hfind : find_sync_target env f [a, z] = .noProgress := by
    unfold find_sync_target
    simp only [hca]
    cases hfd : ca.find? (fun c => on_best_chain env c) with
    | none => rw [if_pos hpos]
    | some x =>
      have hx := List.find?_some hfd
      have hmem := List.mem_of_find?_eq_some hfd
      obtain ⟨n, hn, hfn⟩ := hA x hmem hx
      simp only [hn]
      rw [if_neg (by omega), if_pos hpos]
  simp [sync_one_level, current_syncing_tips, hr, ht, hlf, hf, hfind]

/-- C3 witness: in `envC3`, tip 0 has the canonical but unfinalized child 1
while tip 10 has the canonical finalized child 11; the step still stalls. -/
theorem C3_first_blocking_tip_witness : sync_one_level envC3 sC3 = (.ok false, sC3) :=
  C3_first_blocking_tip envC3 sC3 0 10 100 50 [1] [11] 11 5 rfl rfl rfl rfl rfl (by decide)
    (by intro x hx hbx
        simp only [List.mem_singleton] at hx
        subst hx
        exact ⟨60, rfl, by decide⟩)
    rfl (by decide) (by decide) rfl (by decide)

/-- C4: stall on a non-finalized canonical child.  With Frontier `[a]` where
`a`'s only canonical child `d` has number `nd` strictly greater than the last
finalized number `f`, the step returns `Ok(false)` and the store is
unchanged. -/
theorem C4_stall_on_nonfinalized_child (env : Env) (s : FrontierStore) (a lfb : Hash)
    (f : Nat) (ca : List Hash) (d : Hash) (nd : Nat)
    (hr : env.read_tips_err = none)
    (ht : s.tips = [a])
    (hlf : env.last_finalized = .ok lfb)
    (hf : env.block_number_from_id lfb = .ok (some f))
    (hca : env.children a = .ok ca)
    (hd : d ∈ ca) (hdb : on_best_chain env d = true)
    (huniq : ∀ x ∈ ca, on_best_chain env x = true → x = d)
    (hdn : env.block_number_from_id d = .ok (some nd)) (hnd : f < nd) :
    sync_one_level env s = (.ok false, s) := by
  have hpos : ca.length > 0 := List.length_pos.mpr (List.ne_nil_of_mem hd)
  have hfind : find_sync_target env f [a] = .noProgress := by
    unfold find_sync_target
    simp only [hca, find_of_unique (fun c => on_best_chain env c) d ca hd hdb huniq, hdn]
    rw [if_neg (by omega), if_pos hpos]
  simp [sync_one_level, current_syncing_tips, hr, ht, hlf, hf, hfind]

/-- C4 witness. -/
theorem C4_stall_on_nonfinalized_child_witness :
    sync_one_level envC4 sC4 = (.ok false, sC4) :=
  C4_stall_on_nonfinalized_child envC4 sC4 0 100 50 [2, 1] 1 60 rfl rfl rfl rfl rfl
    (by decide) (by decide) (by decide) rfl (by decide)

/-- C5: successful single-step postcondition.  With Frontier `[a]`, children
`[b, c]` of `a`, only `b` canonical, and `b`'s number ≤ last finalized, the
step returns progress; the Frontier becomes `(frontier - a) ∪ b = [b]` and
the MappingStore gains exactly the entry keyed by `b`'s hash whose Ethereum
block hash and transaction hashes are the ones decoded from `b`'s header's
consensus log. -/
theorem C5_single_step_advancement (env : Env) (s : FrontierStore) (a b c lfb : Hash)
    (f nb : Nat) (hd : Header) (post : PostHashes)
    (hr : env.read_tips_err = none)
    (ht : s.tips = [a])
    (hlf : env.last_finalized = .ok lfb)
    (hf : env.block_number_from_id lfb = .ok (some f))
    (hca : env.children a = .ok [b, c])
    (hbb : on_best_chain env b = true)
    (hcb : on_best_chain env c = false)
    (hbn : env.block_number_from_id b = .ok (some nb)) (hnb : nb ≤ f)
    (hbh : env.header_by_hash b = .ok (some hd)) (hhh : hd.hash = b)
    (hlog : hd.findLog = .ok post)
    (hwh : env.write_hashes_err = none) (hwt : env.write_tips_err = none) :
    sync_one_level env s =
      (.ok true,
       { mappings := s.mappings ++
           [{ block_hash := b, ethereum_block_hash := post.block_hash,
              ethereum_transaction_hashes := post.transaction_hashes }],
         tips := [b] }) := by
  have hfind : find_sync_target env f [a] = .found a b := by
    unfold find_sync_target
    simp only [hca]
    rw [List.find?_cons_of_pos _ hbb]
    simp only [hbn]
    rw [if_pos hnb]
  simp [sync_one_level, current_syncing_tips, sync_children, sync_block, write_hashes,
        write_current_syncing_tips, hr, ht, hlf, hf, hfind, hbh, hlog, hhh, hwh, hwt]

/-- C5 witness. -/
theorem C5_single_step_advancement_witness :
    sync_one_level envC5 sC5 =
      (.ok true,
       { mappings := sC5.mappings ++
           [{ block_hash := 1, ethereum_block_hash := 201,
              ethereum_transaction_hashes := [301, 302] }],
         tips := [1] }) :=
  C5_single_step_advancement envC5 sC5 0 1 2 100 50 7
    { hash := 1, findLog := .ok { block_hash := 201, transaction_hashes := [301, 302] } }
    { block_hash := 201, transaction_hashes := [301, 302] }
    rfl rfl rfl rfl rfl (by decide) (by decide) rfl (by decide) rfl rfl rfl rfl rfl

/-- C6: bootstrap.  From an empty persisted Frontier, when the host genesis
header exists and the runtime API at the genesis block reports the Ethereum
genesis block, `advance(1)` (i.e. `sync_blocks` with limit 1) returns true,
the Frontier becomes the singleton holding the host genesis hash, and a
mapping entry `{genesis host hash, Ethereum genesis hash, []}` is written.
The `last_finalized` query must succeed on this path (see C9). -/
theorem C6_bootstrap (env : Env) (s : FrontierStore) (lfb : Hash) (hd : Header)
    (blk : EthereumBlock)
    (hr : env.read_tips_err = none)
    (ht : s.tips = [])
    (hlf : env.last_finalized = .ok lfb)
    (hg : env.header_at_genesis = .ok (some hd))
    (hcb : env.current_block hd.hash = .ok (some blk))
    (hwh : env.write_hashes_err = none) (hwt : env.write_tips_err = none) :
    sync_blocks env s 1 =
      (.ok true,
       { mappings := s.mappings ++
           [{ block_hash := hd.hash, ethereum_block_hash := blk.headerHash,
              ethereum_transaction_hashes := [] }],
         tips := [hd.hash] }) := by
  simp [sync_blocks, sync_blocks_loop, sync_one_level, current_syncing_tips,
        sync_genesis_block, write_hashes, write_current_syncing_tips,
        hr, ht, hlf, hg, hcb, hwh, hwt]

/-- C6 witness. -/
theorem C6_bootstrap_witness :
    sync_blocks envC6 sC6 1 =
      (.ok true,
       { mappings := sC6.mappings ++
           [{ block_hash := 5, ethereum_block_hash := 77,
              ethereum_transaction_hashes := [] }],
         tips := [5] }) :=
  C6_bootstrap envC6 sC6 100
    { hash := 5, findLog := .ok { block_hash := 999, transaction_hashes := [] } }
    { headerHash := 77 }
    rfl rfl rfl rfl rfl rfl rfl

/-- C7: Frontier-mapped invariant.  If every member of the persisted Frontier
has a mapping entry, then after any successful `advance` (any limit,
bootstrap or steps) every member of the updated Frontier still has one: an
identity joins the tips only after its entry was written. -/
theorem C7_frontier_mapped_invariant (env : Env) (s : FrontierStore) (limit : Nat)
    (b : Bool) (s' : FrontierStore) (hb : hash_consistent env)
    (hinv : frontier_mapped s) (h : sync_blocks env s limit = (.ok b, s')) :
    frontier_mapped s' :=
  sync_blocks_loop_preserves_mapped env hb limit s false b s' hinv h

/-- C7 witness: the invariant after a concrete successful bootstrap run. -/
theorem C7_frontier_mapped_invariant_witness :
    frontier_mapped { mappings := [{ block_hash := 5, ethereum_block_hash := 77,
                                     ethereum_transaction_hashes := [] }], tips := [5] } :=
  C7_frontier_mapped_invariant envC6 sC6 1 true _
    (by intro h hd hh; simp [envC6] at hh)
    (by intro x hx; simp [sC6] at hx)
    rfl

end MappingSync
